import Mathlib

/-
Verification of the dataset query & caching engine of the openbooks API
(`src/api/repository.py`).  The repository code is embedded shallowly:

* a pandas cell is a `Value` (missing/NaN, a string, or a number — rationals
  stand in for Python floats; `Option ℚ` results use `none` for a NaN result);
* a `DataFrame` row of the fixed schema is a `Row`; after `_with_ids` the rows
  carry 1-based identifiers (`IdRow`);
* the filesystem visible to one repository call is a `FileState`; the mutable
  fields `_cache_df`/`_cache_mtime` of `CSVBookRepository` are a `RepoState`
  and stateful methods are step functions passing it explicitly; a Python
  exception is `Except.error`.
-/

namespace OpenBooks

/-- Contents of one pandas cell: missing as the NaN float (`na`), missing as
Python `None` (`pyNone` — the filler `_load_df` assigns when a whole expected
column is absent from the file, `repository.py:25`), text, or a number.
Rationals model Python floats.  NaN and `None` behave alike under `dropna`,
numeric coercion and `na=False` matching, but stringify differently
(`"nan"` versus `"None"`). -/
inductive Value where
  | na : Value
  | pyNone : Value
  | str (s : String) : Value
  | num (q : ℚ) : Value
deriving DecidableEq

/-- One record of the fixed EXPECTED schema of `repository.py`. -/
structure Row where
  title : Value
  price : Value
  rating : Value
  availability : Value
  category : Value
  image_url : Value
  product_url : Value
deriving DecidableEq

/-- A row after `_with_ids`: the 1-based presentation identifier plus the row. -/
structure IdRow where
  id : Nat
  row : Row
deriving DecidableEq

/-- Python helper `_with_ids`: attach `id = position + 1` in file order. -/
def withIds (rows : List Row) : List IdRow :=
  rows.enum.map (fun p => ⟨p.1 + 1, p.2⟩)

deriving instance DecidableEq for Except

/-- State of the backing CSV file at the moment of one repository call:
absent, or present with a modification timestamp and a parse outcome
(`Except.error` models `pd.read_csv` raising on malformed content; an `ok`
parse is already restricted to the EXPECTED columns as `_load_df` does). -/
inductive FileState where
  | absent : FileState
  | present (mtime : ℚ) (parse : Except Unit (List Row)) : FileState
deriving DecidableEq

/-- Observed `st_mtime`, `none` when the file is absent. -/
def FileState.mtimeOpt : FileState → Option ℚ
  | .absent => none
  | .present m _ => some m

/-- Python `csv_path.exists()`. -/
def FileState.existsOnDisk : FileState → Bool
  | .absent => false
  | .present _ _ => true

/-- Python `_load_df`: a missing file yields the empty table (not an error);
a present file yields its parse outcome, so malformed content propagates. -/
def loadDf : FileState → Except Unit (List Row)
  | .absent => .ok []
  | .present _ p => p

/-- The mutable fields of `CSVBookRepository`: `_cache_df` and `_cache_mtime`. -/
structure RepoState where
  cache_df : Option (List IdRow)
  cache_mtime : Option ℚ
deriving DecidableEq

/-- Fresh repository: both caches unset, as in `__init__`. -/
def RepoState.init : RepoState := ⟨none, none⟩

/-- Outcome of one `_df()` call: the returned table (or the propagated load
error), the repository state afterwards, and — as instrumentation — whether
the branch invoking `_load_df` was taken. -/
structure DfResult where
  result : Except Unit (List IdRow)
  state : RepoState
  invokedLoader : Bool
deriving DecidableEq

/-- Reload branch of `_df()`: run the loader; on success assign `_cache_df`
and `_cache_mtime`; on failure the raise skips both assignments, so the state
is returned untouched. -/
def reloadStep (fs : FileState) (st : RepoState) : DfResult :=
  match loadDf fs with
  | .error e => ⟨.error e, st, true⟩
  | .ok rows => ⟨.ok (withIds rows), ⟨some (withIds rows), fs.mtimeOpt⟩, true⟩

/-- Python `CSVBookRepository._df`: reload when `_cache_df is None` or the
observed mtime differs from the stored one, else return the cached table. -/
def dfStep (fs : FileState) (st : RepoState) : DfResult :=
  match st.cache_df with
  | none => reloadStep fs st
  | some t =>
    if fs.mtimeOpt = st.cache_mtime then ⟨.ok t, st, false⟩
    else reloadStep fs st

/-! The library's rational arithmetic (`Rat.add`, `Rat.mul`, `Rat.inv`, …) is
`@[irreducible]`, which blocks kernel evaluation and hence `decide` on any
concrete table.  The model therefore computes with the reducible constructor
`Rat.divInt`; the bridge lemmas below identify these operations with the
ordinary `+`, `/` and `List.sum`, which the theorem statements use. -/

/-- Computable addition on ℚ. -/
def ratAdd (a b : ℚ) : ℚ :=
  Rat.divInt (a.num * b.den + b.num * a.den) (a.den * b.den)

/-- Computable multiplication on ℚ. -/
def ratMul (a b : ℚ) : ℚ :=
  Rat.divInt (a.num * b.num) (a.den * b.den)

/-- Computable subtraction on ℚ. -/
def ratSub (a b : ℚ) : ℚ := ratAdd a (Rat.neg b)

/-- Computable division on ℚ (`a / 0 = 0` as in the library). -/
def ratDiv (a b : ℚ) : ℚ :=
  Rat.divInt (a.num * b.den) (a.den * b.num)

/-- Computable sum of a list of rationals. -/
def ratSum : List ℚ → ℚ
  | [] => 0
  | q :: qs => ratAdd q (ratSum qs)

/-- Minimum of two rationals. -/
def ratMin (a b : ℚ) : ℚ := if a ≤ b then a else b

/-- Maximum of two rationals. -/
def ratMax (a b : ℚ) : ℚ := if b ≤ a then a else b

/-- Whitespace trimming on a character list (the library `String.trim` is
defined by well-founded recursion on byte positions, which blocks kernel
evaluation). -/
def trimChars (cs : List Char) : List Char :=
  ((cs.dropWhile Char.isWhitespace).reverse.dropWhile Char.isWhitespace).reverse

/-- Python `str.strip()` on surrounding whitespace. -/
def pyStrip (s : String) : String := ⟨trimChars s.data⟩

/-- Numeric value of a digit list, `none` when a non-digit occurs. -/
def digitsVal (ds : List Char) : Option Nat :=
  ds.foldl
    (fun acc c =>
      match acc with
      | none => none
      | some n => if c.isDigit then some (n * 10 + (c.toNat - 48)) else none)
    (some 0)

/-- Decimal-literal parser standing in for `pd.to_numeric` on a string:
optional surrounding whitespace and sign, digits with an optional fractional
part.  Scientific notation is not modelled — no claim exercises it; what the
claims need is that plain decimals parse and currency-prefixed or word strings
do not. -/
def parseDecimal (s : String) : Option ℚ :=
  let cs := trimChars s.data
  let signed : ℤ × List Char :=
    match cs with
    | '-' :: r => (-1, r)
    | '+' :: r => (1, r)
    | _ => (1, cs)
  let intPart := signed.2.takeWhile (fun c => c.isDigit)
  let rest := signed.2.dropWhile (fun c => c.isDigit)
  match rest with
  | [] =>
    match intPart, digitsVal intPart with
    | _ :: _, some n => some ((signed.1 * n : ℤ) : ℚ)
    | _, _ => none
  | '.' :: fracPart =>
    if intPart = [] ∧ fracPart = [] then none
    else
      match digitsVal intPart, digitsVal fracPart with
      | some n, some f =>
        some (Rat.divInt (signed.1 * ((n : ℤ) * 10 ^ fracPart.length + f))
          (10 ^ fracPart.length))
      | _, _ => none
  | _ => none

/-- Python `int(...)`-style parser for strings: optional surrounding
whitespace, optional sign, one or more digits; `none` models `ValueError`. -/
def parseIntStr (s : String) : Option ℤ :=
  let cs := trimChars s.data
  let signed : ℤ × List Char :=
    match cs with
    | '-' :: r => (-1, r)
    | '+' :: r => (1, r)
    | _ => (1, cs)
  match signed.2, digitsVal signed.2 with
  | _ :: _, some n => some (signed.1 * n)
  | _, _ => none

/-- Coercion of one cell by `pd.to_numeric(..., errors="coerce")`: numbers pass
through, strings are parsed, failures and missing values give `none` (NaN). -/
def toNum : Value → Option ℚ
  | .num q => some q
  | .str s => parseDecimal s
  | .na => none
  | .pyNone => none

/-- A `price` cell after `_numeric_price`: its numeric value, or NaN. -/
def coerceVal (v : Value) : Value :=
  match toNum v with
  | some q => .num q
  | none => .na

/-- One row of `_numeric_price(df)`: only the `price` column is coerced. -/
def coerceRow (r : IdRow) : IdRow :=
  ⟨r.id, { r.row with price := coerceVal r.row.price }⟩

/-- Python `int(...)` on a cell: numbers truncate toward zero, strings are
parsed as integer literals, `none` models the raise (`ValueError` on an
unparsable string, `TypeError` on `None`). -/
def pyInt : Value → Option ℤ
  | .num q => some (if 0 ≤ q then q.floor else -(Rat.neg q).floor)
  | .str s => parseIntStr s
  | .na => none
  | .pyNone => none

/-- Python `str(...)` of one cell.  NaN prints as the literal string `nan`
while `None` prints as `None`; the exact numeral formatting of a non-missing
number is abbreviated to the rational's own representation (no claim depends
on it). -/
def pyStrVal : Value → String
  | .na => "nan"
  | .pyNone => "None"
  | .str s => s
  | .num q => toString q

/-- Whether a cell is missing. -/
def isNa : Value → Bool
  | .na => true
  | .pyNone => true
  | _ => false

/-- Values of the `price` column that coerce to a number. -/
def numericPrices (t : List IdRow) : List ℚ :=
  t.filterMap (fun r => toNum r.row.price)

/-- Pandas `Series.mean(skipna=True)` over the numeric entries of a column:
`none` models the NaN result on an all-missing column.  `meanSkipna_eq` below
restates it with the ordinary sum and division. -/
def meanSkipna (qs : List ℚ) : Option ℚ :=
  if qs.length = 0 then none else some (ratDiv (ratSum qs) (qs.length : ℚ))

/-- Python `round(x, 2)` on a rational: banker's rounding at two decimals.
(Python rounds the binary float; at the claims' granularity the difference is
immaterial and is not modelled.)  `Rat.floor` is the library floor. -/
def roundHalfEven (x : ℚ) : ℤ :=
  let n := x.floor
  let f := ratSub x (n : ℚ)
  if f < mkRat 1 2 then n
  else if mkRat 1 2 < f then n + 1
  else if n % 2 = 0 then n else n + 1

/-- Round to two decimal places. -/
def round2 (x : ℚ) : ℚ := ratDiv ((roundHalfEven (ratMul 100 x) : ℤ) : ℚ) 100

/-- Python `CSVBookRepository.avg_price` applied to the current table:
coerce prices, return `0.0` for an empty frame, else the skipna mean
(`none` models the NaN float returned when no price is numeric). -/
def avg_price (t : List IdRow) : Option ℚ :=
  if t.length = 0 then some 0 else meanSkipna (numericPrices t)

/-- Stateful `avg_price()` call: `_df()` first (possibly reloading or
raising), then the mean over the resulting table. -/
def avgPriceCall (fs : FileState) (st : RepoState) :
    Except Unit (Option ℚ) × RepoState :=
  let r := dfStep fs st
  match r.result with
  | .error e => (.error e, r.state)
  | .ok t => (.ok (avg_price t), r.state)

/-- Python `CSVBookRepository.list` applied to the current table:
`df.iloc[offset : offset + limit]` for natural arguments. -/
def listRows (t : List IdRow) (limit offset : Nat) : List IdRow :=
  (t.drop offset).take limit

/-- Python `CSVBookRepository.get` applied to the current table: the row at
position `book_id - 1` when `1 <= book_id <= len(df)`, else `None`. -/
def getRow (t : List IdRow) (book_id : Nat) : Option IdRow :=
  if 1 ≤ book_id ∧ book_id ≤ t.length then t[book_id - 1]? else none

/-- Case-insensitive substring test over character lists. -/
def strContainsCI (hay pat : String) : Bool :=
  let h := hay.toLower.toList
  let n := pat.toLower.toList
  (List.range (h.length + 1)).any (fun i => n.isPrefixOf (h.drop i))

/-- One cell under `Series.str.contains(pat, case=False, na=False)`: missing
and non-string cells never match.  (Pandas reads the pattern as a regular
expression; the claims only exercise it on plain text, where substring
containment coincides.) -/
def matchesCI : Value → String → Bool
  | .str s, pat => strContainsCI s pat
  | _, _ => false

/-- Python `CSVBookRepository.search` applied to the current table.  The
guards mirror `if title:` / `if category:`, so `None` and the empty string
both skip the corresponding filter; pagination happens after filtering. -/
def search (t : List IdRow) (title category : Option String)
    (limit offset : Nat) : List IdRow :=
  let t1 :=
    match title with
    | some s => if s = ("") then t else t.filter (fun r => matchesCI r.row.title s)
    | none => t
  let t2 :=
    match category with
    | some s => if s = ("") then t1 else t1.filter (fun r => matchesCI r.row.category s)
    | none => t1
  (t2.drop offset).take limit

/-- Sort key used by `sort_values(["price", "id"])`: the coerced price.  Rows
reaching the sort in `price_range` always have a numeric price (the `between`
filter removed the missing ones), so the default is never observed there. -/
def priceKey (r : IdRow) : ℚ := (toNum r.row.price).getD 0

/-- Row order of `sort_values(["price", "id"], ascending=[True, True])`. -/
def prLe (a b : IdRow) : Prop :=
  priceKey a < priceKey b ∨ (priceKey a = priceKey b ∧ a.id ≤ b.id)

instance : DecidableRel prLe := fun a b => by unfold prLe; infer_instance

instance : IsTotal IdRow prLe := by
  constructor
  intro a b
  rcases lt_trichotomy (priceKey a) (priceKey b) with h | h | h
  · exact Or.inl (Or.inl h)
  · rcases Nat.le_total a.id b.id with h2 | h2
    · exact Or.inl (Or.inr ⟨h, h2⟩)
    · exact Or.inr (Or.inr ⟨h.symm, h2⟩)
  · exact Or.inr (Or.inl h)

instance : IsTrans IdRow prLe := by
  constructor
  intro a b c hab hbc
  rcases hab with h1 | ⟨e1, l1⟩
  · rcases hbc with h2 | ⟨e2, _⟩
    · exact Or.inl (h1.trans h2)
    · exact Or.inl (e2 ▸ h1)
  · rcases hbc with h2 | ⟨e2, l2⟩
    · exact Or.inl (e1 ▸ h2)
    · exact Or.inr ⟨e1.trans e2, l1.trans l2⟩

/-- The `between(min, max, inclusive="both")` filter on the coerced price:
missing prices (NaN) never pass. -/
def inRange (lo hi : ℚ) (r : IdRow) : Bool :=
  match toNum r.row.price with
  | some p => decide (lo ≤ p) && decide (p ≤ hi)
  | none => false

/-- Python `CSVBookRepository.price_range` applied to the current table:
coerce prices, keep rows inside `[lo, hi]`, sort by price then id, then
paginate.  Insertion sort stands in for `sort_values`; with the tie broken by
the unique `id` the sorted output is determined by the order alone. -/
def price_range (t : List IdRow) (lo hi : ℚ) (limit offset : Nat) : List IdRow :=
  let kept := (t.map coerceRow).filter (inRange lo hi)
  let sorted := List.insertionSort prLe kept
  (sorted.drop offset).take limit

/-- One projected row of `features`: `{id, title, price, rating, category}`
with the price coerced and the category stringified then stripped. -/
structure FeatRow where
  id : Nat
  title : Value
  price : Value
  rating : Value
  category : String
deriving DecidableEq

/-- Projection of one row by `features`: the category goes through
`astype(str).str.strip()`, so a missing category becomes the trimmed literal
string `nan`. -/
def featOf (r : IdRow) : FeatRow :=
  ⟨r.id, r.row.title, coerceVal r.row.price, r.row.rating,
    pyStrip (pyStrVal r.row.category)⟩

/-- Python `CSVBookRepository.features` applied to the current table: empty
frame short-circuits to `[]`; otherwise project every row, then slice. -/
def features (t : List IdRow) (limit offset : Nat) : List FeatRow :=
  if t.length = 0 then [] else ((t.map featOf).drop offset).take limit

/-- Python `CSVBookRepository.training_data`: a pass-through to `features`. -/
def training_data (t : List IdRow) (limit offset : Nat) : List FeatRow :=
  features t limit offset

/-- Distinct values in first-appearance order, with explicit fuel so that the
recursion is structural and the kernel can evaluate it (well-founded recursion
on the shrinking filter would not reduce); `l.length` fuel always suffices. -/
def uniqueValsFuel : Nat → List Value → List Value
  | _, [] => []
  | 0, _ :: _ => []
  | n + 1, v :: vs => v :: uniqueValsFuel n (vs.filter (fun u => u ≠ v))

/-- Distinct values of a list in first-appearance order. -/
def uniqueVals (l : List Value) : List Value := uniqueValsFuel l.length l

/-- Multiplicity of a value in a list. -/
def countVal (vs : List Value) (v : Value) : Nat :=
  (vs.filter (fun u => u = v)).length

/-- Pandas `Series.value_counts(dropna=True)`: the distinct non-missing values
with their multiplicities.  We keep first-appearance order where pandas orders
by descending count; downstream the order is observable only when two distinct
values collide to one `str(int(k))` key, a case no claim exercises. -/
def valueCounts (vs : List Value) : List (Value × Nat) :=
  let nn := vs.filter (fun v => !(isNa v))
  (uniqueVals nn).map (fun v => (v, countVal nn v))

/-- Keys of a dict represented as an association list. -/
def dictKeys (d : List (String × Nat)) : List String := d.map Prod.fst

/-- Python dict assignment `d[k] = v`: overwrite an existing key in place,
else append the new entry (insertion order preserved). -/
def dictInsert (d : List (String × Nat)) (k : String) (v : Nat) :
    List (String × Nat) :=
  if k ∈ dictKeys d then d.map (fun p => if p.1 = k then (k, v) else p)
  else d ++ [(k, v)]

/-- Python `d.setdefault(k, v)`. -/
def dictSetdefault (d : List (String × Nat)) (k : String) (v : Nat) :
    List (String × Nat) :=
  if k ∈ dictKeys d then d else d ++ [(k, v)]

/-- The comprehension `{str(int(k)): int(v) for k, v in vc.items()}` before
dict collapsing: `none` from `int` models the `ValueError` it raises on a
rating that is not integer-convertible. -/
def distPairs : List (Value × Nat) → Except Unit (List (String × Nat))
  | [] => .ok []
  | (v, c) :: rest =>
    match pyInt v with
    | none => .error ()
    | some i => (distPairs rest).map (fun ps => (toString i, c) :: ps)

/-- The five keys forced into `ratings_distribution`. -/
def ratingKeys : List String := ["1", "2", "3", "4", "5"]

/-- The `ratings_distribution` value of `stats_overview`: collapse the
stringified value counts into a dict, then `setdefault` each of "1".."5". -/
def distOfRatings (ratings : List Value) : Except Unit (List (String × Nat)) :=
  (distPairs (valueCounts ratings)).map (fun ps =>
    ratingKeys.foldl (fun d k => dictSetdefault d k 0)
      (ps.foldl (fun d p => dictInsert d p.1 p.2) []))

/-- Result record of `stats_overview` (`avg_price = none` models NaN). -/
structure Overview where
  total_books : Nat
  avg_price : Option ℚ
  ratings_distribution : List (String × Nat)
deriving DecidableEq

/-- Python `CSVBookRepository.stats_overview` applied to the current table. -/
def stats_overview (t : List IdRow) : Except Unit Overview :=
  if t.length = 0 then
    .ok ⟨0, some 0, [("1", 0), ("2", 0), ("3", 0), ("4", 0), ("5", 0)]⟩
  else
    (distOfRatings (t.map (fun r => r.row.rating))).map
      (fun d => ⟨t.length, (meanSkipna (numericPrices t)).map round2, d⟩)

/-- Rank giving the arbitrary cross-kind part of the cell order. -/
def valRank : Value → Nat
  | .na => 0
  | .pyNone => 0
  | .num _ => 1
  | .str _ => 2

/-- Comparison used by `sort_values` on the category column: strings compare
lexicographically and numbers numerically.  A mixed-kind column makes pandas
raise, so the cross-kind cases here are an arbitrary total completion; missing
categories were already dropped by `groupby(dropna=True)`. -/
def valLe : Value → Value → Prop
  | .str x, .str y => x ≤ y
  | .num x, .num y => x ≤ y
  | x, y => valRank x ≤ valRank y

instance : DecidableRel valLe := fun a b => by
  cases a <;> cases b <;> unfold valLe <;> infer_instance

/-- One row of the grouped frame `g` in `stats_by_category`, before the output
loop: the group key and the `count`/`mean`/`min`/`max` aggregates of the
coerced price (`none` models NaN on an empty aggregate). -/
structure GroupRow where
  cat : Value
  count : Nat
  avg : Option ℚ
  minp : Option ℚ
  maxp : Option ℚ
deriving DecidableEq

/-- Minimum of a rational list, `none` when empty (pandas `min` skipna). -/
def listMin : List ℚ → Option ℚ
  | [] => none
  | q :: qs =>
    match listMin qs with
    | none => some q
    | some m => some (ratMin q m)

/-- Maximum of a rational list, `none` when empty (pandas `max` skipna). -/
def listMax : List ℚ → Option ℚ
  | [] => none
  | q :: qs =>
    match listMax qs with
    | none => some q
    | some m => some (ratMax q m)

/-- Numeric prices of the rows carrying the given category value. -/
def groupPrices (t : List IdRow) (c : Value) : List ℚ :=
  (t.filter (fun r => r.row.category = c)).filterMap (fun r => toNum r.row.price)

/-- Aggregates of one category group.  Pandas `count` counts the non-missing
prices, so a group whose prices are all unparsable gets `count = 0` and NaN
aggregates — it is not dropped. -/
def groupStat (t : List IdRow) (c : Value) : GroupRow :=
  let ps := groupPrices t c
  ⟨c, ps.length, meanSkipna ps, listMin ps, listMax ps⟩

/-- Group keys of `groupby("category", dropna=True)`: the distinct non-missing
category values.  Whitespace-only categories are ordinary strings and are
kept. -/
def distinctCats (t : List IdRow) : List Value :=
  uniqueVals ((t.map (fun r => r.row.category)).filter (fun v => !(isNa v)))

/-- Row order of `sort_values(["count", "category"], ascending=[False, True])`. -/
def gLe (a b : GroupRow) : Prop :=
  b.count < a.count ∨ (a.count = b.count ∧ valLe a.cat b.cat)

instance : DecidableRel gLe := fun a b => by unfold gLe; infer_instance

/-- The grouped frame after sorting, before the output loop. -/
def groupsSorted (t : List IdRow) : List GroupRow :=
  List.insertionSort gLe ((distinctCats t).map (groupStat t))

/-- One element of the output list of `stats_by_category`. -/
structure CatStat where
  category : String
  count : Nat
  avg_price : Option ℚ
  min_price : Option ℚ
  max_price : Option ℚ
deriving DecidableEq

/-- The output loop of `stats_by_category`: stringify the key and round the
price aggregates (`round` of NaN is NaN, kept as `none`). -/
def mkCatStat (g : GroupRow) : CatStat :=
  ⟨pyStrVal g.cat, g.count, g.avg.map round2, g.minp.map round2, g.maxp.map round2⟩

/-- Python `CSVBookRepository.stats_by_category` applied to the current table. -/
def stats_by_category (t : List IdRow) : List CatStat :=
  if t.length = 0 then [] else (groupsSorted t).map mkCatStat

/-- Result record of `health()` (the constant `status` field is omitted;
`last_updated = none` models the JSON null). -/
structure Health where
  csv_exists : Bool
  rows : Nat
  last_updated : Option ℚ
deriving DecidableEq

/-- The `last_updated` expression of `health()`: Python truthiness of
`self._cache_mtime` makes both `None` and the timestamp `0.0` render as null;
otherwise the stored timestamp is formatted with `isoformat()`, which is
injective, so the raw timestamp is kept. -/
def lastUpdated : Option ℚ → Option ℚ
  | some q => if q = 0 then none else some q
  | none => none

/-- Python `CSVBookRepository.health`: when the file is absent, `_df()` is not
called — the row count is 0 and `last_updated` still reads the previously
stored timestamp; when present, `_df()` runs first (and may raise). -/
def healthCall (fs : FileState) (st : RepoState) :
    Except Unit Health × RepoState :=
  match fs with
  | .absent => (.ok ⟨false, 0, lastUpdated st.cache_mtime⟩, st)
  | .present _ _ =>
    let r := dfStep fs st
    match r.result with
    | .ok t => (.ok ⟨true, t.length, lastUpdated r.state.cache_mtime⟩, r.state)
    | .error e => (.error e, r.state)

instance : IsTotal Value valLe := by
  constructor
  intro a b
  cases a <;> cases b <;> unfold valLe <;> unfold valRank <;>
    first
      | exact Or.inl (by decide)
      | exact le_total _ _

instance : IsTrans Value valLe := by
  constructor
  intro a b c hab hbc
  cases a <;> cases b <;> cases c <;>
    unfold valLe at * <;> unfold valRank at * <;>
    first
      | exact le_trans hab hbc
      | trivial

instance : IsTotal GroupRow gLe := by
  constructor
  intro a b
  rcases Nat.lt_trichotomy b.count a.count with h | h | h
  · exact Or.inl (Or.inl h)
  · rcases total_of valLe a.cat b.cat with h2 | h2
    · exact Or.inl (Or.inr ⟨h.symm, h2⟩)
    · exact Or.inr (Or.inr ⟨h, h2⟩)
  · exact Or.inr (Or.inl h)

instance : IsTrans GroupRow gLe := by
  constructor
  intro a b c hab hbc
  rcases hab with h1 | ⟨e1, l1⟩
  · rcases hbc with h2 | ⟨e2, _⟩
    · exact Or.inl (h2.trans h1)
    · exact Or.inl (e2 ▸ h1)
  · rcases hbc with h2 | ⟨e2, l2⟩
    · exact Or.inl (e1 ▸ h2)
    · exact Or.inr ⟨e1.trans e2, Trans.trans l1 l2⟩

/-! Concrete fixtures used by the scenario theorems, counterexamples and
witnesses.  `fileA` is a 3-row dataset with average price 10; `fileB` the
1-row replacement of price 50 from the spec's reload example. -/

/-- A well-formed book row with the given price and rating 3. -/
def rowP (p : ℚ) : Row :=
  ⟨.str ("t"), .num p, .num 3, .str ("in"), .str ("c"), .str ("i"), .str ("u")⟩

/-- Three rows with prices 5, 10, 15 — average price 10. -/
def fileA : List Row := [rowP 5, rowP 10, rowP 15]

/-- The backing file holding `fileA`, modified at time 100. -/
def fsA : FileState := .present 100 (.ok fileA)

/-- One row of price 50. -/
def fileB : List Row := [rowP 50]

/-- The backing file holding `fileB`, modified at time 200. -/
def fsB : FileState := .present 200 (.ok fileB)

/-- The repository state after loading `fsA`. -/
def stA : RepoState := ⟨some (withIds fileA), some 100⟩

/-- The repository state after loading `fsB`. -/
def stB : RepoState := ⟨some (withIds fileB), some 200⟩

/-- A row whose price does not coerce to a number. -/
def rowBadPrice : Row :=
  ⟨.str ("t"), .str ("abc"), .num 3, .str ("in"), .str ("c"), .str ("i"), .str ("u")⟩

/-- A row with rating 0 (the scraper emits 0 for an unrecognised star class). -/
def rowRate0 : Row :=
  ⟨.str ("t"), .num 10, .num 0, .str ("in"), .str ("c"), .str ("i"), .str ("u")⟩

/-- A row whose rating is the word string found on the site. -/
def rowRateWord : Row :=
  ⟨.str ("t"), .num 10, .str ("Three"), .str ("in"), .str ("c"), .str ("i"), .str ("u")⟩

/-- A category-A row whose price does not coerce to a number. -/
def rowCatBad : Row :=
  ⟨.str ("t"), .str ("abc"), .num 3, .str ("in"), .str ("A"), .str ("i"), .str ("u")⟩

/-- A row whose category is missing as NaN (empty cell of a present column). -/
def rowNaCat : Row :=
  ⟨.str ("t"), .num 10, .num 3, .str ("in"), .na, .str ("i"), .str ("u")⟩

/-- A row whose category is Python `None`, as `_load_df` produces for every
row when the file lacks the category column. -/
def rowNoneCat : Row :=
  ⟨.str ("t"), .num 10, .num 3, .str ("in"), .pyNone, .str ("i"), .str ("u")⟩

/-! Bridge lemmas: the computable rational operations of the model agree with
the library operations, so theorem statements can use the ordinary ones. -/

/-- The computable division agrees with library division. -/
theorem ratDiv_eq_div (a b : ℚ) : ratDiv a b = a / b := by
  rcases eq_or_ne b 0 with hb | hb
  · subst hb
    simp [ratDiv, Rat.divInt_eq_div]
  · have had : ((a.den : ℚ)) ≠ 0 := Nat.cast_ne_zero.2 a.den_nz
    have hbd : ((b.den : ℚ)) ≠ 0 := Nat.cast_ne_zero.2 b.den_nz
    have hbn : ((b.num : ℚ)) ≠ 0 := by
      exact_mod_cast fun h => hb (Rat.zero_iff_num_zero.2 (by exact_mod_cast h))
    have ha : ((a.num : ℚ)) = a * a.den := (div_eq_iff had).mp (Rat.num_div_den a)
    have hb2 : ((b.num : ℚ)) = b * b.den := (div_eq_iff hbd).mp (Rat.num_div_den b)
    rw [ratDiv, Rat.divInt_eq_div]
    push_cast
    rw [div_eq_div_iff (mul_ne_zero had hbn) hb, ha, hb2]
    ring

/-- The computable addition agrees with library addition. -/
theorem ratAdd_eq_add (a b : ℚ) : ratAdd a b = a + b := by
  have had : ((a.den : ℚ)) ≠ 0 := Nat.cast_ne_zero.2 a.den_nz
  have hbd : ((b.den : ℚ)) ≠ 0 := Nat.cast_ne_zero.2 b.den_nz
  have ha : ((a.num : ℚ)) = a * a.den := (div_eq_iff had).mp (Rat.num_div_den a)
  have hb2 : ((b.num : ℚ)) = b * b.den := (div_eq_iff hbd).mp (Rat.num_div_den b)
  rw [ratAdd, Rat.divInt_eq_div]
  push_cast
  rw [div_eq_iff (mul_ne_zero had hbd), ha, hb2]
  ring

/-- The computable sum agrees with `List.sum`. -/
theorem ratSum_eq_sum : ∀ qs : List ℚ, ratSum qs = qs.sum
  | [] => rfl
  | q :: qs => by rw [ratSum, ratAdd_eq_add, ratSum_eq_sum qs, List.sum_cons]

/-- Restatement of `meanSkipna` with the ordinary sum and division. -/
theorem meanSkipna_eq (qs : List ℚ) :
    meanSkipna qs =
      if qs.length = 0 then none else some (qs.sum / (qs.length : ℚ)) := by
  rw [meanSkipna, ratDiv_eq_div, ratSum_eq_sum]

/-- C1.  Cache coherency and freshness: `_df()` invokes the loader if and only
if no table is cached yet or the observed modification timestamp differs from
the stored one (transitions to/from "file absent" included, since the observed
timestamp is `none` exactly when the file is absent); consequently, loading a
3-row file of average price 10 and then replacing it by a 1-row file of price
50 with a fresh timestamp makes the next `avg_price()` call return 50. -/
theorem c1_cache_coherency_and_freshness :
    (∀ (fs : FileState) (st : RepoState),
        (dfStep fs st).invokedLoader = true
          ↔ (st.cache_df = none ∨ fs.mtimeOpt ≠ st.cache_mtime))
    ∧ avgPriceCall fsA RepoState.init = (.ok (some 10), stA)
    ∧ avgPriceCall fsB stA = (.ok (some 50), stB) := by
  have hinv : ∀ (fs : FileState) (st : RepoState),
      (reloadStep fs st).invokedLoader = true := by
    intro fs st
    unfold reloadStep
    cases loadDf fs <;> rfl
  refine ⟨?_, by decide, by decide⟩
  intro fs st
  obtain ⟨cd, cm⟩ := st
  cases cd with
  | none =>
    have hstep : dfStep fs ⟨none, cm⟩ = reloadStep fs ⟨none, cm⟩ := rfl
    rw [hstep]
    simp [hinv]
  | some t =>
    have hstep : dfStep fs ⟨some t, cm⟩ =
        if fs.mtimeOpt = cm then ⟨.ok t, ⟨some t, cm⟩, false⟩
        else reloadStep fs ⟨some t, cm⟩ := rfl
    rw [hstep]
    by_cases hm : fs.mtimeOpt = cm
    · rw [if_pos hm]
      simp [hm]
    · rw [if_neg hm]
      simp [hinv, hm]

/-- C2.  Atomicity of reload on failure: when the backing file is present but
malformed and the reload condition holds, `_df()` propagates the loader error
and leaves the cached table and stored timestamp exactly as they were. -/
theorem c2_reload_failure_preserves_cache (m : ℚ) (st : RepoState)
    (hcond : st.cache_df = none ∨ (some m : Option ℚ) ≠ st.cache_mtime) :
    dfStep (.present m (.error ())) st = ⟨.error (), st, true⟩ := by
  obtain ⟨cd, cm⟩ := st
  cases cd with
  | none => rfl
  | some t =>
    have hstep : dfStep (.present m (.error ())) ⟨some t, cm⟩ =
        if (some m : Option ℚ) = cm then ⟨.ok t, ⟨some t, cm⟩, false⟩
        else reloadStep (.present m (.error ())) ⟨some t, cm⟩ := rfl
    rw [hstep]
    rcases hcond with h | h
    · cases h
    · rw [if_neg h]
      rfl

/-- Witness for C2 at a concrete malformed file over a warm cache. -/
theorem c2_witness :
    dfStep (.present 300 (.error ())) stA = ⟨.error (), stA, true⟩ :=
  c2_reload_failure_preserves_cache 300 stA (Or.inr (by decide))

/-- C3 counterexample: a one-row dataset whose price does not parse.  The
frame is non-empty with no numeric price, and `avg_price` returns the NaN
mean (`none`), not `0.0` — refuting the claim's all-missing clause. -/
theorem c3_counterexample :
    withIds [rowBadPrice] ≠ [] ∧
    numericPrices (withIds [rowBadPrice]) = [] ∧
    avg_price (withIds [rowBadPrice]) ≠ some 0 :=
  ⟨by decide, by decide, by decide⟩

/-- C3 as amended.  `avg_price()` is `0.0` on the empty dataset and the mean
of the parseable prices when at least one parses; on a non-empty dataset
whose every price is unparsable it is NaN (missing), not `0.0`.  The
`avg_price` field of `stats_overview()` is that mean rounded to 2 decimals,
again `0.0` only for the empty dataset and NaN when no price is numeric. -/
theorem c3_avg_price_amended :
    avg_price [] = some 0
    ∧ (∀ t : List IdRow, numericPrices t ≠ [] →
        avg_price t
          = some ((numericPrices t).sum / ((numericPrices t).length : ℚ)))
    ∧ (∀ t : List IdRow, t ≠ [] → numericPrices t = [] → avg_price t = none)
    ∧ (∀ (t : List IdRow) (s : Overview), stats_overview t = .ok s →
        s.avg_price = if t.length = 0 then some 0
          else (meanSkipna (numericPrices t)).map round2) := by
  refine ⟨rfl, ?_, ?_, ?_⟩
  · intro t h
    have hlen : t.length ≠ 0 := by
      intro h0
      rw [List.length_eq_zero.mp h0] at h
      exact h rfl
    rw [avg_price, if_neg hlen, meanSkipna_eq,
      if_neg (fun h0 => h (List.length_eq_zero.mp h0))]
  · intro t ht hp
    have hlen : t.length ≠ 0 := fun h0 => ht (List.length_eq_zero.mp h0)
    rw [avg_price, if_neg hlen, meanSkipna_eq, if_pos (by rw [hp]; rfl)]
  · intro t s hs
    by_cases hlen : t.length = 0
    · rw [stats_overview, if_pos hlen] at hs
      cases hs
      rw [if_pos hlen]
    · rw [stats_overview, if_neg hlen] at hs
      rw [if_neg hlen]
      cases hd : distOfRatings (t.map (fun r => r.row.rating)) with
      | error e => rw [hd] at hs; cases hs
      | ok d => rw [hd] at hs; cases hs; rfl

/-- Witness for C3's amended theorem at concrete datasets. -/
theorem c3_amended_witness :
    avg_price (withIds fileA)
      = some ((numericPrices (withIds fileA)).sum
          / ((numericPrices (withIds fileA)).length : ℚ))
    ∧ avg_price (withIds [rowBadPrice]) = none :=
  ⟨c3_avg_price_amended.2.1 (withIds fileA) (by decide),
   c3_avg_price_amended.2.2.1 (withIds [rowBadPrice]) (by decide) (by decide)⟩

/-- C6 counterexample: load while the file is present (timestamp 100), then
the file disappears.  `health()` reports `exists = false` and 0 rows, but the
reported last-modified time is the previously stored timestamp 100, not null —
refuting the claim's "null whenever … the file is currently absent". -/
theorem c6_counterexample :
    dfStep fsA RepoState.init = ⟨.ok (withIds fileA), stA, true⟩
    ∧ healthCall .absent stA = (.ok ⟨false, 0, some 100⟩, stA)
    ∧ (some (100 : ℚ) : Option ℚ) ≠ none :=
  ⟨by decide, by decide, by decide⟩

/-- C6 as amended.  `health()` reports whether the file exists; when the file
is absent it reports 0 rows without touching the cache and its last-modified
field is computed from the *stored* timestamp — so it is null exactly when no
timestamp is stored (never loaded, or the last reload saw the file absent, or
the stored epoch is 0.0 under Python truthiness), and an earlier timestamp is
still reported after the file disappears.  When the file exists, the row count
is that of the possibly just-reloaded table and the timestamp is read from the
updated state; a reload failure propagates. -/
theorem c6_health_amended (fs : FileState) (st : RepoState) :
    (fs = .absent →
      healthCall fs st = (.ok ⟨false, 0, lastUpdated st.cache_mtime⟩, st))
    ∧ (∀ (t : List IdRow) (st2 : RepoState) (b : Bool),
        fs.existsOnDisk = true → dfStep fs st = ⟨.ok t, st2, b⟩ →
        healthCall fs st = (.ok ⟨true, t.length, lastUpdated st2.cache_mtime⟩, st2))
    ∧ (∀ (st2 : RepoState) (b : Bool),
        fs.existsOnDisk = true → dfStep fs st = ⟨.error (), st2, b⟩ →
        healthCall fs st = (.error (), st2))
    ∧ (∀ q : ℚ, lastUpdated (some q) = if q = 0 then none else some q)
    ∧ lastUpdated none = none := by
  refine ⟨?_, ?_, ?_, fun q => rfl, rfl⟩
  · intro h
    subst h
    rfl
  · intro t st2 b hex hstep
    cases fs with
    | absent => cases hex
    | present m p =>
      show (match (dfStep (.present m p) st).result with
        | .ok t => ((.ok ⟨true, t.length,
            lastUpdated (dfStep (.present m p) st).state.cache_mtime⟩ :
              Except Unit Health), (dfStep (.present m p) st).state)
        | .error e => ((.error e : Except Unit Health),
            (dfStep (.present m p) st).state)) =
        (.ok ⟨true, t.length, lastUpdated st2.cache_mtime⟩, st2)
      rw [hstep]
  · intro st2 b hex hstep
    cases fs with
    | absent => cases hex
    | present m p =>
      show (match (dfStep (.present m p) st).result with
        | .ok t => ((.ok ⟨true, t.length,
            lastUpdated (dfStep (.present m p) st).state.cache_mtime⟩ :
              Except Unit Health), (dfStep (.present m p) st).state)
        | .error e => ((.error e : Except Unit Health),
            (dfStep (.present m p) st).state)) =
        (.error (), st2)
      rw [hstep]

/-- Witness for C6's amended theorem at concrete repository runs. -/
theorem c6_amended_witness :
    healthCall .absent stB = (.ok ⟨false, 0, some 200⟩, stB)
    ∧ healthCall fsB stA = (.ok ⟨true, 1, some 200⟩, stB)
    ∧ lastUpdated (some 0) = none := by
  refine ⟨?_, ?_, ?_⟩
  · rw [(c6_health_amended .absent stB).1 rfl]
    decide
  · rw [(c6_health_amended fsB stA).2.1 (withIds fileB) stB true rfl (by decide)]
    decide
  · rw [(c6_health_amended .absent stB).2.2.2.1 0]
    decide

/-- C9 (implicit).  An empty-string filter behaves exactly like an absent
filter: `search(title="", category="", limit, offset)` coincides with
`list(limit, offset)` on every table, so rows with a missing title or
category are not excluded by an empty-string filter. -/
theorem c9_empty_filters_equal_list (t : List IdRow) (limit offset : Nat) :
    search t (some ("")) (some ("")) limit offset = listRows t limit offset
    ∧ search t none none limit offset = listRows t limit offset :=
  ⟨rfl, rfl⟩

/-- C10 counterexample: a row whose category is Python `None` — the filler
`_load_df` assigns to every row when the file lacks the category column — is
rendered by `features` with the string "None", not "nan", refuting the
claim's universal rendering of missing categories. -/
theorem c10_counterexample :
    (features (withIds [rowNoneCat]) 10 0).map FeatRow.category = [("None")]
    ∧ ("None" : String) ≠ ("nan") :=
  ⟨by decide, by decide⟩

/-- C10 as amended.  In the `features` projection a missing category is
stringified before trimming, so it is never an empty string or a null — but
the rendering depends on the kind of missingness: a NaN category (missing
cell of a present column) renders as the literal "nan", while a `None`
category (whole column synthesized by `_load_df` because it was absent from
the file) renders as "None".  `features` is the row-wise projection `featOf`
followed by the slice, and `training_data` returns exactly `features` for
all arguments. -/
theorem c10_features_missing_category_amended (t : List IdRow)
    (limit offset : Nat) (r r2 : IdRow)
    (hna : r.row.category = .na) (hnone : r2.row.category = .pyNone) :
    (featOf r).category = "nan"
    ∧ (featOf r2).category = "None"
    ∧ training_data t limit offset = features t limit offset
    ∧ (t ≠ [] →
        features t limit offset = ((t.map featOf).drop offset).take limit) := by
  refine ⟨?_, ?_, rfl, ?_⟩
  · have hc : (featOf r).category = pyStrip (pyStrVal r.row.category) := rfl
    rw [hc, hna]
    decide
  · have hc : (featOf r2).category = pyStrip (pyStrVal r2.row.category) := rfl
    rw [hc, hnone]
    decide
  · intro ht
    rw [features, if_neg (fun h0 => ht (List.length_eq_zero.mp h0))]

/-- Witness for C10's amended theorem at concrete rows of both missing kinds. -/
theorem c10_amended_witness :
    (featOf ⟨1, rowNaCat⟩).category = "nan"
    ∧ (featOf ⟨1, rowNoneCat⟩).category = "None"
    ∧ training_data (withIds fileA) 2 1 = features (withIds fileA) 2 1
    ∧ features (withIds fileA) 2 1
        = (((withIds fileA).map featOf).drop 1).take 2 := by
  obtain ⟨h1, h2, h3, h4⟩ := c10_features_missing_category_amended
    (withIds fileA) 2 1 ⟨1, rowNaCat⟩ ⟨1, rowNoneCat⟩ (by decide) (by decide)
  exact ⟨h1, h2, h3, h4 (by decide)⟩

/-- The table keeps the file's row count. -/
theorem withIds_length (rows : List Row) :
    (withIds rows).length = rows.length := by
  simp [withIds]

/-- Identifier of the row at position `i` is `i + 1`. -/
theorem withIds_getElem_id (rows : List Row) (i : Nat)
    (h : i < (withIds rows).length) : (withIds rows)[i].id = i + 1 := by
  have h2 : i < rows.enum.length := by
    simpa [withIds] using h
  simp [withIds, List.getElem_enum]

/-- C7.  get/list round-trip: every row produced by `list(row_count, 0)` is
returned verbatim by `get` at its own id, and for every id in
`[1, row_count]` the id field of `get(id)` equals the requested id (ids are
the 1-based positions assigned in file order). -/
theorem c7_get_list_roundtrip (rows : List Row) :
    (∀ r ∈ listRows (withIds rows) (withIds rows).length 0,
        getRow (withIds rows) r.id = some r)
    ∧ (∀ i : Nat, 1 ≤ i → i ≤ (withIds rows).length →
        (getRow (withIds rows) i).map IdRow.id = some i) := by
  constructor
  · intro r hr
    have hall : listRows (withIds rows) (withIds rows).length 0 = withIds rows := by
      rw [listRows, List.drop_zero, List.take_length]
    rw [hall] at hr
    obtain ⟨i, hi, hget⟩ := List.getElem_of_mem hr
    have hid : r.id = i + 1 := by
      rw [← hget, withIds_getElem_id rows i hi]
    rw [getRow, hid, if_pos ⟨Nat.le_add_left 1 i, hi⟩]
    simpa using List.getElem?_eq_getElem hi |>.trans (congrArg some hget)
  · intro i h1 h2
    have hlt : i - 1 < (withIds rows).length := by omega
    rw [getRow, if_pos ⟨h1, h2⟩, List.getElem?_eq_getElem hlt]
    rw [Option.map_some']
    rw [withIds_getElem_id rows (i - 1) hlt]
    congr 1
    omega

/-- Witness for C7 on the concrete 3-row table. -/
theorem c7_witness :
    getRow (withIds fileA) 2 = some ⟨2, rowP 10⟩
    ∧ (getRow (withIds fileA) 3).map IdRow.id = some 3 := by
  obtain ⟨h1, h2⟩ := c7_get_list_roundtrip fileA
  exact ⟨h1 ⟨2, rowP 10⟩ (by decide), h2 3 (by decide) (by decide)⟩

/-- C8.  `price_range(min, max, limit, offset)` keeps exactly the rows whose
price coerces to a number inside the inclusive interval (every returned row
carries a numeric price within bounds), the output is ordered by ascending
price with ties by ascending id, and the `[offset, offset+limit)` slice is
applied only after the full filtered set is sorted (so pagination is a slice
of the fully sorted result). -/
theorem c8_price_range_sorted_in_bounds (t : List IdRow) (lo hi : ℚ)
    (limit offset : Nat) :
    (∀ r ∈ price_range t lo hi limit offset,
        ∃ p : ℚ, r.row.price = .num p ∧ lo ≤ p ∧ p ≤ hi)
    ∧ List.Pairwise prLe (price_range t lo hi limit offset)
    ∧ price_range t lo hi limit offset
        = ((price_range t lo hi t.length 0).drop offset).take limit := by
  have hdef : ∀ (li off : Nat), price_range t lo hi li off =
      ((List.insertionSort prLe
        ((t.map coerceRow).filter (inRange lo hi))).drop off).take li :=
    fun li off => rfl
  set kept := (t.map coerceRow).filter (inRange lo hi) with hkept
  set sorted := List.insertionSort prLe kept with hsorted
  refine ⟨?_, ?_, ?_⟩
  · intro r hr
    rw [hdef] at hr
    have hrs : r ∈ sorted :=
      List.mem_of_mem_drop (List.mem_of_mem_take hr)
    have hrk : r ∈ kept := (List.perm_insertionSort prLe kept).subset hrs
    rw [hkept, List.mem_filter] at hrk
    obtain ⟨hmem, hin⟩ := hrk
    obtain ⟨r0, _, rfl⟩ := List.mem_map.mp hmem
    have hprice : (coerceRow r0).row.price = coerceVal r0.row.price := rfl
    cases h0 : toNum r0.row.price with
    | none =>
      rw [inRange, hprice, coerceVal, h0] at hin
      cases hin
    | some q =>
      rw [inRange, hprice, coerceVal, h0] at hin
      have hq : toNum (Value.num q) = some q := rfl
      rw [hq] at hin
      refine ⟨q, ?_, ?_, ?_⟩
      · rw [hprice, coerceVal, h0]
      · exact of_decide_eq_true (Bool.and_elim_left hin)
      · exact of_decide_eq_true (Bool.and_elim_right hin)
  · rw [hdef]
    have hs : List.Pairwise prLe sorted := List.sorted_insertionSort prLe kept
    exact hs.sublist ((List.take_sublist _ _).trans (List.drop_sublist _ _))
  · rw [hdef, hdef]
    have hlen : sorted.length ≤ t.length := by
      have h1 : sorted.length = kept.length :=
        (List.perm_insertionSort prLe kept).length_eq
      have h2 : kept.length ≤ (t.map coerceRow).length :=
        List.length_filter_le _ _
      rw [h1, List.length_map] at *
      omega
    rw [List.drop_zero, List.take_of_length_le hlen]

/-- Witness for C8 on the concrete 3-row table. -/
theorem c8_witness :
    price_range (withIds fileA) 6 20 1 1
      = ((price_range (withIds fileA) 6 20 (withIds fileA).length 0).drop 1).take 1
    ∧ List.Pairwise prLe (price_range (withIds fileA) 6 20 10 0) :=
  ⟨(c8_price_range_sorted_in_bounds (withIds fileA) 6 20 1 1).2.2,
   (c8_price_range_sorted_in_bounds (withIds fileA) 6 20 10 0).2.1⟩

/-- Every value produced by `uniqueValsFuel` occurs in the input. -/
theorem mem_of_mem_uniqueValsFuel : ∀ (n : Nat) (l : List Value) (v : Value),
    v ∈ uniqueValsFuel n l → v ∈ l := by
  intro n
  induction n with
  | zero =>
    intro l v h
    cases l with
    | nil => cases h
    | cons x xs =>
      rw [uniqueValsFuel] at h
      cases h
  | succ n ih =>
    intro l v h
    cases l with
    | nil => cases h
    | cons x xs =>
      rw [uniqueValsFuel] at h
      rcases List.mem_cons.mp h with h1 | h1
      · exact h1 ▸ List.mem_cons_self _ _
      · exact List.mem_cons_of_mem _ (List.mem_of_mem_filter (ih _ v h1))

/-- Every value produced by `uniqueVals` occurs in the input. -/
theorem mem_of_mem_uniqueVals (l : List Value) (v : Value)
    (h : v ∈ uniqueVals l) : v ∈ l :=
  mem_of_mem_uniqueValsFuel l.length l v h

/-- `uniqueValsFuel` has no duplicates. -/
theorem uniqueValsFuel_nodup : ∀ (n : Nat) (l : List Value),
    (uniqueValsFuel n l).Nodup := by
  intro n
  induction n with
  | zero =>
    intro l
    cases l with
    | nil => exact List.nodup_nil
    | cons x xs =>
      rw [uniqueValsFuel]
      exact List.nodup_nil
  | succ n ih =>
    intro l
    cases l with
    | nil => exact List.nodup_nil
    | cons x xs =>
      rw [uniqueValsFuel]
      refine List.Nodup.cons ?_ (ih _)
      intro hmem
      have h1 := mem_of_mem_uniqueValsFuel _ _ _ hmem
      exact absurd rfl (of_decide_eq_true (List.mem_filter.mp h1).2)

/-- `uniqueVals` has no duplicates. -/
theorem uniqueVals_nodup (l : List Value) : (uniqueVals l).Nodup :=
  uniqueValsFuel_nodup l.length l

/-- Counting after consing the counted value. -/
theorem countVal_cons_self (vs : List Value) (v : Value) :
    countVal (v :: vs) v = countVal vs v + 1 := by
  rw [countVal, countVal, List.filter_cons]
  simp

/-- Counting after consing a different value. -/
theorem countVal_cons_of_ne (vs : List Value) (u v : Value) (h : u ≠ v) :
    countVal (u :: vs) v = countVal vs v := by
  rw [countVal, countVal, List.filter_cons]
  simp [h]

/-- Removing the occurrences of a different value does not change a count. -/
theorem countVal_filter_ne (vs : List Value) (u v : Value) (h : u ≠ v) :
    countVal (vs.filter (fun w => w ≠ v)) u = countVal vs u := by
  rw [countVal, countVal, List.filter_filter]
  congr 1
  apply List.filter_congr
  intro w _
  by_cases hw : w = u
  · subst hw
    simp [h]
  · simp [hw]

/-- The occurrences of a value and of the other values partition a list. -/
theorem countVal_add_filter_ne_length (xs : List Value) (w : Value) :
    countVal xs w + (xs.filter (fun u => u ≠ w)).length = xs.length := by
  induction xs with
  | nil => rfl
  | cons x xs ihx =>
    by_cases hx : x = w
    · subst hx
      rw [countVal_cons_self]
      have hg : (x :: xs).filter (fun u => u ≠ x) = xs.filter (fun u => u ≠ x) := by
        rw [List.filter_cons]
        simp
      rw [hg, List.length_cons]
      omega
    · rw [countVal_cons_of_ne _ _ _ hx]
      have hg : (x :: xs).filter (fun u => u ≠ w)
          = x :: xs.filter (fun u => u ≠ w) := by
        rw [List.filter_cons]
        simp [hx]
      rw [hg, List.length_cons, List.length_cons]
      omega

/-- With enough fuel, the multiplicities of the distinct values partition the
list. -/
theorem sum_countVal_uniqueValsFuel : ∀ (n : Nat) (l : List Value),
    l.length ≤ n →
    ((uniqueValsFuel n l).map (fun v => countVal l v)).sum = l.length := by
  intro n
  induction n with
  | zero =>
    intro l hl
    rw [List.length_eq_zero.mp (Nat.le_zero.mp hl)]
    rfl
  | succ n ih =>
    intro l hl
    cases l with
    | nil => rfl
    | cons w ws =>
      rw [uniqueValsFuel, List.map_cons, List.sum_cons, countVal_cons_self]
      have hmap : (uniqueValsFuel n (ws.filter (fun u => u ≠ w))).map
            (fun v => countVal (w :: ws) v)
          = (uniqueValsFuel n (ws.filter (fun u => u ≠ w))).map
            (fun v => countVal (ws.filter (fun u => u ≠ w)) v) := by
        apply List.map_congr_left
        intro u hu
        have hune : u ≠ w := of_decide_eq_true
          (List.mem_filter.mp (mem_of_mem_uniqueValsFuel _ _ _ hu)).2
        rw [countVal_cons_of_ne ws w u (Ne.symm hune),
          countVal_filter_ne ws u w hune]
      have hfl : (ws.filter (fun u => u ≠ w)).length ≤ n := by
        have h1 : (ws.filter (fun u => u ≠ w)).length ≤ ws.length :=
          List.length_filter_le _ _
        have h2 : ws.length ≤ n := by
          rw [List.length_cons] at hl
          omega
        omega
      rw [hmap, ih _ hfl]
      have := countVal_add_filter_ne_length ws w
      rw [List.length_cons]
      omega

/-- The multiplicities of the distinct values partition the list. -/
theorem sum_countVal_uniqueVals (l : List Value) :
    ((uniqueVals l).map (fun v => countVal l v)).sum = l.length :=
  sum_countVal_uniqueValsFuel l.length l (Nat.le_refl _)

/-- Python `int` on a non-negative integer-valued cell. -/
theorem pyInt_intCast (k : ℤ) (h : 0 ≤ k) :
    pyInt (.num (k : ℚ)) = some k := by
  rw [pyInt]
  have h0 : (0 : ℚ) ≤ (k : ℚ) := by exact_mod_cast h
  rw [if_pos h0]
  have hfl : ((k : ℚ)).floor = ⌊(k : ℚ)⌋ := rfl
  rw [hfl, Int.floor_intCast]

/-- The keys produced from in-range ratings are among "1".."5". -/
theorem toString_int_mem_ratingKeys (k : ℤ) (h1 : 1 ≤ k) (h5 : k ≤ 5) :
    toString k ∈ ratingKeys := by
  interval_cases k <;> decide

/-- Distinct in-range ratings stringify to distinct keys. -/
theorem toString_int_inj15 (k k' : ℤ) (h1 : 1 ≤ k) (h2 : k ≤ 5)
    (h3 : 1 ≤ k') (h4 : k' ≤ 5) (he : toString k = toString k') : k = k' := by
  interval_cases k <;> interval_cases k' <;>
    first
      | rfl
      | exact absurd he (by decide)

/-- When every counted rating is an integer 1–5, the key/count comprehension
succeeds and produces the stringified keys with the counts untouched. -/
theorem distPairs_all_int : ∀ l : List (Value × Nat),
    (∀ p ∈ l, ∃ k : ℤ, p.1 = Value.num (k : ℚ) ∧ 1 ≤ k ∧ k ≤ 5) →
    ∃ ps : List (String × Nat),
      distPairs l = .ok ps
      ∧ ps.map Prod.snd = l.map Prod.snd
      ∧ (∀ s ∈ ps.map Prod.fst, ∃ q ∈ l, ∃ k' : ℤ,
          q.1 = Value.num (k' : ℚ) ∧ 1 ≤ k' ∧ k' ≤ 5 ∧ s = toString k')
      ∧ ((l.map Prod.fst).Nodup → (ps.map Prod.fst).Nodup) := by
  intro l
  induction l with
  | nil =>
    intro _
    refine ⟨[], rfl, rfl, ?_, fun _ => List.nodup_nil⟩
    intro s hs
    cases hs
  | cons p rest ih =>
    intro h
    obtain ⟨k, hk, hk1, hk5⟩ := h p (List.mem_cons_self _ _)
    obtain ⟨ps, hps, hsnd, hcorr, hnd⟩ :=
      ih (fun q hq => h q (List.mem_cons_of_mem _ hq))
    have hpy : pyInt p.1 = some k := by
      rw [hk]
      exact pyInt_intCast k (by omega)
    refine ⟨(toString k, p.2) :: ps, ?_, ?_, ?_, ?_⟩
    · obtain ⟨v, c⟩ := p
      rw [distPairs]
      rw [show pyInt v = some k from hpy, hps]
      rfl
    · rw [List.map_cons, List.map_cons, hsnd]
    · intro s hs
      rw [List.map_cons] at hs
      rcases List.mem_cons.mp hs with h1 | h1
      · exact ⟨p, List.mem_cons_self _ _, k, hk, hk1, hk5, h1⟩
      · obtain ⟨q, hq, k', a, b, c, d⟩ := hcorr s h1
        exact ⟨q, List.mem_cons_of_mem _ hq, k', a, b, c, d⟩
    · intro hnd0
      rw [List.map_cons] at hnd0 ⊢
      obtain ⟨hp1, hnd1⟩ := List.nodup_cons.mp hnd0
      refine List.nodup_cons.mpr ⟨?_, hnd hnd1⟩
      intro hmem
      obtain ⟨q, hq, k', hq1, hk1', hk5', heq⟩ := hcorr (toString k) hmem
      have hkk : k = k' := toString_int_inj15 k k' hk1 hk5 hk1' hk5' heq
      apply hp1
      rw [List.mem_map]
      refine ⟨q, hq, ?_⟩
      rw [hq1, ← hkk, ← hk]

/-- Folding Python dict insertion over fresh, pairwise-distinct keys is a
plain append. -/
theorem foldl_dictInsert_fresh : ∀ (ps d : List (String × Nat)),
    (ps.map Prod.fst).Nodup →
    (∀ k ∈ ps.map Prod.fst, k ∉ dictKeys d) →
    ps.foldl (fun d p => dictInsert d p.1 p.2) d = d ++ ps := by
  intro ps
  induction ps with
  | nil =>
    intro d _ _
    simp
  | cons p rest ih =>
    intro d hnd hfresh
    rw [List.foldl_cons]
    have hknotin : p.1 ∉ dictKeys d := by
      apply hfresh
      rw [List.map_cons]
      exact List.mem_cons_self _ _
    have hins : dictInsert d p.1 p.2 = d ++ [(p.1, p.2)] := by
      rw [dictInsert, if_neg ?hni]
      case hni =>
        intro hc
        exact hknotin (by rwa [dictKeys])
    rw [hins]
    rw [List.map_cons] at hnd hfresh
    obtain ⟨hp1, hnd1⟩ := List.nodup_cons.mp hnd
    have hfresh1 : ∀ k ∈ rest.map Prod.fst, k ∉ dictKeys (d ++ [(p.1, p.2)]) := by
      intro k hk hcontra
      rw [dictKeys, List.map_append] at hcontra
      rcases List.mem_append.mp hcontra with hc | hc
      · exact hfresh k (List.mem_cons_of_mem _ hk) (by rwa [dictKeys])
      · rw [List.map_singleton, List.mem_singleton] at hc
        exact hp1 (hc ▸ hk)
    rw [ih (d ++ [(p.1, p.2)]) hnd1 hfresh1, List.append_assoc]
    rfl

/-- `setdefault`-folding zeros preserves the sum of the stored counts. -/
theorem foldl_setdefault_sum : ∀ (ks : List String) (d : List (String × Nat)),
    ((ks.foldl (fun d k => dictSetdefault d k 0) d).map Prod.snd).sum
      = (d.map Prod.snd).sum := by
  intro ks
  induction ks with
  | nil =>
    intro d
    rfl
  | cons k rest ih =>
    intro d
    rw [List.foldl_cons, ih, dictSetdefault]
    by_cases hk : k ∈ dictKeys d
    · rw [if_pos hk]
    · rw [if_neg hk, List.map_append, List.sum_append]
      rfl

/-- `setdefault`-folding adds exactly the folded keys to the key set. -/
theorem foldl_setdefault_keys : ∀ (ks : List String) (d : List (String × Nat)),
    (dictKeys (ks.foldl (fun d k => dictSetdefault d k 0) d)).toFinset
      = (dictKeys d).toFinset ∪ ks.toFinset := by
  intro ks
  induction ks with
  | nil =>
    intro d
    simp
  | cons k rest ih =>
    intro d
    rw [List.foldl_cons, ih]
    have hstep : (dictKeys (dictSetdefault d k 0)).toFinset
        = (dictKeys d).toFinset ∪ {k} := by
      rw [dictSetdefault]
      by_cases hk : k ∈ dictKeys d
      · rw [if_pos hk]
        have hmem : k ∈ (dictKeys d).toFinset := List.mem_toFinset.mpr hk
        exact (Finset.union_eq_left.mpr
          (Finset.singleton_subset_iff.mpr hmem)).symm
      · rw [if_neg hk, dictKeys, List.map_append, List.toFinset_append]
        rfl
    rw [hstep, List.toFinset_cons, Finset.union_assoc, Finset.insert_eq]

end OpenBooks
